import Mathlib

/-!
# Verification of the Minesweeper inference engine

This file is a shallow embedding of the knowledge-based Minesweeper solver
found in `minesweeper.py` (classes `Sentence` and `MinesweeperAI`), together
with theorems settling the specified properties of its inference engine.

Modelling conventions:
* a board cell is a pair of integers (Python tuples of `int`);
* a Python `set` of cells is a `Finset Cell` (value equality, no order);
* a sentence count is an `Int` (Python integers may go negative here);
* the knowledge base, a Python `list`, is a `List Sentence`;
* where the source iterates over a Python `set` (whose order is unspecified),
  the embedding iterates in ascending lexicographic order (`cellSort`);
* a raised `RuntimeError` is an `Except.error ()`.
-/

abbrev Cell : Type := ℤ × ℤ

/-- Lexicographic order on cells, used to give the embedding a deterministic
iteration order for Python sets. -/
def cellLe (a b : Cell) : Prop := a.1 < b.1 ∨ (a.1 = b.1 ∧ a.2 ≤ b.2)

instance cellLeDec : DecidableRel cellLe := fun a b =>
  inferInstanceAs (Decidable (a.1 < b.1 ∨ (a.1 = b.1 ∧ a.2 ≤ b.2)))

instance cellLeTrans : IsTrans Cell cellLe := by
  constructor
  intro a b c hab hbc
  unfold cellLe at *
  omega

instance cellLeAntisymm : IsAntisymm Cell cellLe := by
  constructor
  intro a b hab hba
  unfold cellLe at *
  have h : a.1 = b.1 ∧ a.2 = b.2 := by omega
  exact Prod.ext h.1 h.2

instance cellLeTotal : IsTotal Cell cellLe := by
  constructor
  intro a b
  unfold cellLe
  omega

/-- The elements of a finite set of cells, listed in ascending order. -/
def cellSort (s : Finset Cell) : List Cell :=
  Quot.liftOn s.val (fun l => l.insertionSort cellLe) (fun l₁ l₂ h => by
    exact List.eq_of_perm_of_sorted (r := cellLe)
      (((l₁.perm_insertionSort cellLe).trans h).trans (l₂.perm_insertionSort cellLe).symm)
      (List.sorted_insertionSort cellLe l₁)
      (List.sorted_insertionSort cellLe l₂))

def exceptToSum {ε α : Type _} : Except ε α → ε ⊕ α
  | .error e => .inl e
  | .ok a => .inr a

instance exceptDecEq {ε α : Type _} [DecidableEq ε] [DecidableEq α] :
    DecidableEq (Except ε α) := fun a b =>
  decidable_of_iff (exceptToSum a = exceptToSum b) (by
    cases a <;> cases b <;> simp [exceptToSum])

theorem mem_cellSort {s : Finset Cell} {c : Cell} : c ∈ cellSort s ↔ c ∈ s := by
  rcases s with ⟨m, nd⟩
  induction m using Quot.inductionOn with
  | h l =>
    show c ∈ l.insertionSort cellLe ↔ _
    rw [(l.perm_insertionSort cellLe).mem_iff]
    rfl

/-- `class Sentence`: a set of board cells and a count of how many of those
cells are mines.  Two sentences are equal iff their cell sets and counts are
equal (`Sentence.__eq__`). -/
structure Sentence where
  cells : Finset Cell
  count : ℤ

instance sentenceDecEq : DecidableEq Sentence := fun a b =>
  decidable_of_iff (a.cells = b.cells ∧ a.count = b.count) (by
    cases a <;> cases b <;> simp)

namespace Sentence

/-- `Sentence.known_mines`: the cells if the count is non-zero and equals the
number of cells, else the empty set. -/
def known_mines (s : Sentence) : Finset Cell :=
  if s.count ≠ 0 ∧ s.count = (s.cells.card : ℤ) then s.cells else ∅

/-- `Sentence.known_safes`: the cells if the count is zero, else the empty
set. -/
def known_safes (s : Sentence) : Finset Cell :=
  if s.count = 0 then s.cells else ∅

/-- `Sentence.mark_mine`: if the cell is present, remove it and decrement the
count. -/
def mark_mine (s : Sentence) (cell : Cell) : Sentence :=
  if cell ∈ s.cells then ⟨s.cells.erase cell, s.count - 1⟩ else s

/-- `Sentence.mark_safe`: if the cell is present and the count is positive,
remove the cell (count unchanged).  Note the source guards with
`self.count > 0` in addition to membership. -/
def mark_safe (s : Sentence) (cell : Cell) : Sentence :=
  if cell ∈ s.cells ∧ 0 < s.count then ⟨s.cells.erase cell, s.count⟩ else s

end Sentence

/-- The mutable state of `class MinesweeperAI`. -/
structure AIState where
  height : ℕ
  width : ℕ
  moves_made : Finset Cell
  mines : Finset Cell
  safes : Finset Cell
  knowledge : List Sentence

instance aiStateDecEq : DecidableEq AIState := fun a b =>
  decidable_of_iff (a.height = b.height ∧ a.width = b.width ∧
    a.moves_made = b.moves_made ∧ a.mines = b.mines ∧ a.safes = b.safes ∧
    a.knowledge = b.knowledge) (by cases a <;> cases b <;> simp)

namespace MinesweeperAI

/-- `MinesweeperAI.__init__`. -/
def initial (height width : ℕ) : AIState :=
  ⟨height, width, ∅, ∅, ∅, []⟩

/-- `MinesweeperAI.mark_mine`: add the cell to `mines`; collect for removal
every sentence whose count equals its number of cells, mark the mine in all
others, then remove the collected sentences (first equal occurrence each, as
Python `list.remove` does).  The source also tests `sentence.cells == cell`,
which compares a set with a tuple and is always `False` in Python, so it is
dropped here. -/
def ai_mark_mine (st : AIState) (cell : Cell) : AIState :=
  let toRemove := st.knowledge.filter fun s => decide (s.count = (s.cells.card : ℤ))
  let updated := st.knowledge.map fun s =>
    if s.count = (s.cells.card : ℤ) then s else s.mark_mine cell
  { st with
    mines := insert cell st.mines
    knowledge := toRemove.foldl (fun kb s => kb.erase s) updated }

/-- `MinesweeperAI.mark_safe`: add the cell to `safes`; collect for removal
every sentence with count zero, mark the cell safe in all others, then remove
the collected sentences. -/
def ai_mark_safe (st : AIState) (cell : Cell) : AIState :=
  let toRemove := st.knowledge.filter fun s => decide (s.count = 0)
  let updated := st.knowledge.map fun s =>
    if s.count = 0 then s else s.mark_safe cell
  { st with
    safes := insert cell st.safes
    knowledge := toRemove.foldl (fun kb s => kb.erase s) updated }

/-- `MinesweeperAI.neighbours`: the 3 by 3 block around the cell, the cell
itself removed, then every cell having a coordinate in `{-1, 8}` removed (the
board size is hard-coded to 8 in the source). -/
def neighbours (cell : Cell) : Finset Cell :=
  let offsets : List (ℤ × ℤ) :=
    ([-1, 0, 1] : List ℤ).flatMap fun i => ([-1, 0, 1] : List ℤ).map fun j => (i, j)
  let nbs := (offsets.map fun o => (cell.1 + o.1, cell.2 + o.2)).toFinset
  (nbs.erase cell).filter fun c => ¬(c.1 = -1 ∨ c.1 = 8 ∨ c.2 = -1 ∨ c.2 = 8)

/-- The on-board 8-neighbourhood as the specification words it: the 3 by 3
block around the cell, self excluded, coordinates outside
`[0, height) × [0, width)` excluded.  Stated from the spec for comparison
with `neighbours`. -/
def specNeighbourhood (height width : ℤ) (cell : Cell) : Finset Cell :=
  let offsets : List (ℤ × ℤ) :=
    ([-1, 0, 1] : List ℤ).flatMap fun i => ([-1, 0, 1] : List ℤ).map fun j => (i, j)
  let nbs := (offsets.map fun o => (cell.1 + o.1, cell.2 + o.2)).toFinset
  (nbs.erase cell).filter fun c =>
    0 ≤ c.1 ∧ c.1 < height ∧ 0 ≤ c.2 ∧ c.2 < width

/-- The ordered pairs scanned by the two nested loops of
`MinesweeperAI.infer_knowledge`. -/
def pairs (kb : List Sentence) : List (Sentence × Sentence) :=
  kb.flatMap fun s1 => kb.map fun s2 => (s1, s2)

/-- The guard and derivation of one loop iteration of `infer_knowledge`:
`sentence1.cells.issubset(sentence2.cells) and sentence1 != sentence2 and
sentence1.count >= 1 and sentence2.count >= 1`, deriving the difference
sentence. -/
def deriveOf (p : Sentence × Sentence) : Option Sentence :=
  if p.1.cells ⊆ p.2.cells ∧ p.1 ≠ p.2 ∧ 1 ≤ p.1.count ∧ 1 ≤ p.2.count then
    some ⟨p.2.cells \ p.1.cells, p.2.count - p.1.count⟩
  else none

/-- The `new_knowledge` list accumulated by the scan of `infer_knowledge`. -/
def derivedList (kb : List Sentence) : List Sentence :=
  (pairs kb).filterMap deriveOf

/-- The `used_knowledge` list accumulated by the scan of `infer_knowledge`:
the second component of every pair that passed the guard. -/
def usedList (kb : List Sentence) : List Sentence :=
  (pairs kb).filterMap fun p => if (deriveOf p).isSome then some p.2 else none

/-- The first apply phase of `infer_knowledge`: append each derived sentence
not already present. -/
def insertNew (kb news : List Sentence) : List Sentence :=
  news.foldl (fun acc s => if s ∈ acc then acc else acc ++ [s]) kb

/-- The second apply phase of `infer_knowledge`: remove each used sentence
still present (first equal occurrence, as Python `list.remove` does). -/
def removeUsed (kb used : List Sentence) : List Sentence :=
  used.foldl (fun acc s => if s ∈ acc then acc.erase s else acc) kb

/-- `MinesweeperAI.infer_knowledge`: scan all ordered pairs of sentences,
deriving the subset-difference sentence for each pair passing the guard;
raise `RuntimeError("Inconsistent knowledge")` if a derived cell set is
empty; otherwise append the derived sentences not already present and then
remove the used (superset) sentences.  The scan is collected first and the
list is rewritten only afterwards, mirroring the comment
"do it separately to avoid writing while iterating". -/
def infer_knowledge (kb : List Sentence) : Except Unit (List Sentence) :=
  if (derivedList kb).any (fun c => decide (c.cells = ∅)) then .error ()
  else .ok (removeUsed (insertNew kb (derivedList kb)) (usedList kb))

/-- `MinesweeperAI.resolve_cells_from_knowledge`: collect the known safe and
known mine cells across all sentences, then mark every collected safe cell,
then every collected mine cell.  The source iterates over Python sets in
unspecified order; the embedding iterates in ascending order. -/
def resolve_cells_from_knowledge (st : AIState) : AIState :=
  let safeCells := st.knowledge.foldl (fun acc s => acc ∪ s.known_safes) ∅
  let mineCells := st.knowledge.foldl (fun acc s => acc ∪ s.known_mines) ∅
  let st1 := (cellSort safeCells).foldl ai_mark_safe st
  (cellSort mineCells).foldl ai_mark_mine st1

/-- Steps 1 and 2 of `MinesweeperAI.add_knowledge`: record the move in
`moves_made` and mark the played cell safe. -/
def recordMove (st : AIState) (cell : Cell) : AIState :=
  ai_mark_safe { st with moves_made := insert cell st.moves_made } cell

/-- Steps 1 to 4 of `MinesweeperAI.add_knowledge`, before inference: record
the move, mark the cell safe, and append the sentence over the unexplored
neighbours with the adjusted count (only when that set is non-empty). -/
def ingest (st : AIState) (cell : Cell) (count : ℤ) : AIState :=
  let st1 := recordMove st cell
  let unexplored1 := (neighbours cell \ st1.safes) \ st1.moves_made
  let notCountingMines := unexplored1.card
  let unexplored := unexplored1 \ st1.mines
  if unexplored ≠ ∅ then
    { st1 with
      knowledge := st1.knowledge ++
        [⟨unexplored, count - ((notCountingMines : ℤ) - (unexplored.card : ℤ))⟩] }
  else st1

/-- `MinesweeperAI.add_knowledge`: ingest the observation, then run
`infer_knowledge` once and `resolve_cells_from_knowledge` once.  The
`RuntimeError` of `infer_knowledge` propagates to the caller. -/
def add_knowledge (st : AIState) (cell : Cell) (count : ℤ) : Except Unit AIState :=
  (infer_knowledge (ingest st cell count).knowledge).map fun kb =>
    resolve_cells_from_knowledge { ingest st cell count with knowledge := kb }

/-- One round of the derive/resolve/propagate loop on an engine state:
`infer_knowledge` followed by `resolve_cells_from_knowledge`, exactly what
`add_knowledge` runs after ingestion. -/
def loopStep (st : AIState) : Except Unit AIState :=
  (infer_knowledge st.knowledge).map fun kb =>
    resolve_cells_from_knowledge { st with knowledge := kb }

/-- `MinesweeperAI.make_safe_move`: a cell of `safes - moves_made`, or none
when that set is empty.  Python pops an arbitrary element; the embedding
takes the least. -/
def make_safe_move (st : AIState) : Option Cell :=
  (cellSort (st.safes \ st.moves_made)).head?

/-- The set of all board cells built by the loops of
`MinesweeperAI.make_random_move`. -/
def allCells (height width : ℕ) : Finset Cell :=
  ((List.range height).flatMap fun i =>
    (List.range width).map fun j => ((i : ℤ), (j : ℤ))).toFinset

/-- `MinesweeperAI.make_random_move`: a cell among all board cells minus
`moves_made` minus `mines`, or none when that set is empty.  Python pops an
arbitrary element; the embedding takes the least. -/
def make_random_move (st : AIState) : Option Cell :=
  (cellSort ((allCells st.height st.width \ st.moves_made) \ st.mines)).head?

/-- The engine state reached from `initial 8 8` by `add_knowledge((0,0), 1)`:
one sentence over the three neighbours of the corner. -/
def chainState1 : AIState :=
  ⟨8, 8, {(0,0)}, ∅, {(0,0)}, [⟨{(0,1),(1,0),(1,1)}, 1⟩]⟩

/-- The state reached from `chainState1` by `add_knowledge((2,0), 2)`. -/
def chainState2 : AIState :=
  ⟨8, 8, {(0,0),(2,0)}, ∅, {(0,0),(2,0)},
    [⟨{(0,1),(1,0),(1,1)}, 1⟩, ⟨{(1,0),(1,1),(2,1),(3,0),(3,1)}, 2⟩]⟩

/-- The state reached from `chainState2` by `add_knowledge((4,0), 5)`: the
resolve pass marks the five neighbours of `(4,0)` as mines, which drives the
second sentence to `{(1,0),(1,1)} = 0`, resolvable by a further pass. -/
def chainState3 : AIState :=
  ⟨8, 8, {(0,0),(2,0),(4,0)}, {(3,0),(3,1),(4,1),(5,0),(5,1)},
    {(0,0),(2,0),(4,0)},
    [⟨{(0,1),(1,0),(1,1)}, 1⟩, ⟨{(1,0),(1,1),(2,1)}, 0⟩]⟩

end MinesweeperAI

/-! ## General lemmas about the embedded operations -/

theorem Sentence.eq_iff {A B : Sentence} : A = B ↔ A.cells = B.cells ∧ A.count = B.count := by
  cases A
  cases B
  simp

namespace MinesweeperAI

theorem mem_pairs {kb : List Sentence} {A B : Sentence} :
    (A, B) ∈ pairs kb ↔ A ∈ kb ∧ B ∈ kb := by
  simp [pairs, List.mem_flatMap, List.mem_map, Prod.ext_iff]

end MinesweeperAI

/-! ## The claims -/

/-- C8 (confirmed).  `known_mines` returns the cell set exactly when the
count is positive and equals the number of cells, else the empty set;
`known_safes` returns the cell set exactly when the count is zero, else the
empty set; the sentence with no cells and count zero yields the empty set
from both queries. -/
theorem known_queries_characterisation (s : Sentence) :
    s.known_mines =
      (if 0 < s.count ∧ s.count = (s.cells.card : ℤ) then s.cells else ∅) ∧
    s.known_safes = (if s.count = 0 then s.cells else ∅) ∧
    (Sentence.mk ∅ 0).known_mines = ∅ ∧ (Sentence.mk ∅ 0).known_safes = ∅ := by
  refine ⟨?_, rfl, by decide, by decide⟩
  have h : (s.count ≠ 0 ∧ s.count = (s.cells.card : ℤ)) ↔
      (0 < s.count ∧ s.count = (s.cells.card : ℤ)) := by
    constructor <;> rintro ⟨h1, h2⟩ <;> refine ⟨?_, h2⟩ <;> omega
  rw [Sentence.known_mines, if_congr h rfl rfl]

/-- C5 (corrected, counterexample).  The claim states that `mark_safe`
removes the cell whenever it is a member; but on a sentence with count `0`
the source's guard `self.count > 0` fails and the member cell is kept. -/
theorem mark_safe_keeps_member_at_zero_count :
    (Sentence.mk {(0, 0)} 0).mark_safe (0, 0) = Sentence.mk {(0, 0)} 0 ∧
    ((0 : ℤ), (0 : ℤ)) ∈ ((Sentence.mk {(0, 0)} 0).mark_safe (0, 0)).cells := by
  decide

/-- C5 (corrected, amended).  `mark_safe` removes the cell exactly when the
cell is a member and the count is positive, leaves the count unchanged in
all cases, and is a no-op otherwise (in particular when the cell is
absent). -/
theorem mark_safe_characterisation (s : Sentence) (c : Cell) :
    (s.mark_safe c).count = s.count ∧
    (s.mark_safe c).cells =
      (if c ∈ s.cells ∧ 0 < s.count then s.cells.erase c else s.cells) := by
  unfold Sentence.mark_safe
  by_cases h : c ∈ s.cells ∧ 0 < s.count
  · rw [if_pos h, if_pos h]
    exact ⟨rfl, rfl⟩
  · rw [if_neg h, if_neg h]
    exact ⟨rfl, rfl⟩

/-- C4 (code_bug).  The neighbourhood computation removes only coordinates
equal to `-1` or `8`: on an 8 by 8 board this is exactly the on-board
8-neighbourhood, but the board size is hard-coded, so on a 3 by 3 board the
off-board cell `(3, 3)` is kept, contradicting the intent of filtering
cells that are out of the board. -/
theorem neighbours_hardcodes_board_size :
    ((3 : ℤ), (3 : ℤ)) ∈ MinesweeperAI.neighbours (2, 2) ∧
    ((3 : ℤ), (3 : ℤ)) ∉ MinesweeperAI.specNeighbourhood 3 3 (2, 2) ∧
    MinesweeperAI.neighbours (2, 2) = MinesweeperAI.specNeighbourhood 8 8 (2, 2) := by
  decide

open MinesweeperAI

theorem head?_mem {l : List Cell} {c : Cell} (h : l.head? = some c) : c ∈ l := by
  cases l with
  | nil => exact absurd h (by simp)
  | cons a t =>
    simp only [List.head?_cons, Option.some.injEq] at h
    subst h
    exact List.mem_cons_self a t

/-- C9 (confirmed).  `make_safe_move` never returns a cell already in
`moves_made` (it returns a member of `safes - moves_made`, or none when that
set is empty), and `make_random_move` never returns a cell in `mines` or in
`moves_made`. -/
theorem move_selection_avoids_known_cells (st : AIState) (c : Cell) :
    (make_safe_move st = some c → c ∈ st.safes ∧ c ∉ st.moves_made) ∧
    (st.safes \ st.moves_made = ∅ → make_safe_move st = none) ∧
    (make_random_move st = some c → c ∉ st.mines ∧ c ∉ st.moves_made) := by
  refine ⟨?_, ?_, ?_⟩
  · intro h
    have hc : c ∈ st.safes \ st.moves_made := mem_cellSort.mp (head?_mem h)
    rw [Finset.mem_sdiff] at hc
    exact hc
  · intro h
    unfold make_safe_move
    cases hl : cellSort (st.safes \ st.moves_made) with
    | nil => rfl
    | cons a t =>
      exfalso
      have ha : a ∈ st.safes \ st.moves_made := by
        rw [← mem_cellSort, hl]
        exact List.mem_cons_self a t
      rw [h] at ha
      exact absurd ha (Finset.not_mem_empty a)
  · intro h
    have hc : c ∈ (allCells st.height st.width \ st.moves_made) \ st.mines :=
      mem_cellSort.mp (head?_mem h)
    rw [Finset.mem_sdiff, Finset.mem_sdiff] at hc
    exact ⟨hc.2, hc.1.2⟩

namespace MinesweeperAI

theorem deriveOf_guard {A B : Sentence} (hsub : A.cells ⊆ B.cells) (hne : A ≠ B)
    (hA1 : 1 ≤ A.count) (hB1 : 1 ≤ B.count) :
    deriveOf (A, B) = some ⟨B.cells \ A.cells, B.count - A.count⟩ := by
  have h : A.cells ⊆ B.cells ∧ A ≠ B ∧ 1 ≤ A.count ∧ 1 ≤ B.count :=
    ⟨hsub, hne, hA1, hB1⟩
  show (if A.cells ⊆ B.cells ∧ A ≠ B ∧ 1 ≤ A.count ∧ 1 ≤ B.count then
    some (⟨B.cells \ A.cells, B.count - A.count⟩ : Sentence) else none) = _
  rw [if_pos h]

theorem deriveOf_eq_some {p : Sentence × Sentence} {C : Sentence}
    (h : deriveOf p = some C) :
    p.1.cells ⊆ p.2.cells ∧ p.1 ≠ p.2 ∧ 1 ≤ p.1.count ∧ 1 ≤ p.2.count ∧
    C = ⟨p.2.cells \ p.1.cells, p.2.count - p.1.count⟩ := by
  unfold deriveOf at h
  split at h
  case isTrue hcond =>
    injection h with h1
    exact ⟨hcond.1, hcond.2.1, hcond.2.2.1, hcond.2.2.2, h1.symm⟩
  case isFalse hcond =>
    exact absurd h (by simp)

theorem mem_derivedList {kb : List Sentence} {C : Sentence} :
    C ∈ derivedList kb ↔ ∃ p ∈ pairs kb, deriveOf p = some C := by
  simp [derivedList, List.mem_filterMap]

theorem hasContradiction_iff (kb : List Sentence) :
    ((derivedList kb).any fun c => decide (c.cells = ∅)) = true ↔
      ∃ A ∈ kb, ∃ B ∈ kb, A.cells = B.cells ∧ A.count ≠ B.count ∧
        1 ≤ A.count ∧ 1 ≤ B.count := by
  rw [List.any_eq_true]
  constructor
  · rintro ⟨c, hc, hcc⟩
    rw [decide_eq_true_iff] at hcc
    obtain ⟨p, hp, hd⟩ := mem_derivedList.mp hc
    obtain ⟨hsub, hne, h1, h2, hC⟩ := deriveOf_eq_some hd
    subst hC
    have hsub2 : p.2.cells ⊆ p.1.cells := Finset.sdiff_eq_empty_iff_subset.mp hcc
    have hcells : p.1.cells = p.2.cells := Finset.Subset.antisymm hsub hsub2
    have hcount : p.1.count ≠ p.2.count := fun hEq =>
      hne (Sentence.eq_iff.mpr ⟨hcells, hEq⟩)
    have hmem : (p.1, p.2) ∈ pairs kb := hp
    obtain ⟨hp1, hp2⟩ := mem_pairs.mp hmem
    exact ⟨p.1, hp1, p.2, hp2, hcells, hcount, h1, h2⟩
  · rintro ⟨A, hA, B, hB, hcells, hcount, h1, h2⟩
    refine ⟨⟨B.cells \ A.cells, B.count - A.count⟩, ?_, ?_⟩
    · exact mem_derivedList.mpr ⟨(A, B), mem_pairs.mpr ⟨hA, hB⟩,
        deriveOf_guard (hcells ▸ Finset.Subset.refl A.cells)
          (fun hEq => hcount (congrArg Sentence.count hEq)) h1 h2⟩
    · rw [decide_eq_true_iff]
      show B.cells \ A.cells = ∅
      rw [hcells, Finset.sdiff_self]

end MinesweeperAI

/-- C3 (confirmed).  `infer_knowledge` raises exactly when some passing pair
of sentences derives an empty cell set (equal cell sets with different
counts, both at least 1, in which case the derived count is non-zero), and
the error propagates out of `add_knowledge` to the caller; a scan all of
whose derivations have non-empty cell sets never raises. -/
theorem contradiction_raising_characterisation :
    (∀ kb : List Sentence, infer_knowledge kb = .error () ↔
      ∃ A ∈ kb, ∃ B ∈ kb, A.cells = B.cells ∧ A.count ≠ B.count ∧
        1 ≤ A.count ∧ 1 ≤ B.count) ∧
    (∀ (st : AIState) (cell : Cell) (count : ℤ),
      add_knowledge st cell count = .error () ↔
        infer_knowledge (ingest st cell count).knowledge = .error ()) := by
  constructor
  · intro kb
    rw [← MinesweeperAI.hasContradiction_iff]
    unfold infer_knowledge
    split
    case isTrue h => simp [h]
    case isFalse h => simp [h]
  · intro st cell count
    unfold add_knowledge
    cases h : infer_knowledge (ingest st cell count).knowledge with
    | error e =>
      cases e
      simp [h, Except.map]
    | ok kb =>
      simp [h, Except.map]

namespace MinesweeperAI

theorem insertNew_nil (kb : List Sentence) : insertNew kb [] = kb := rfl

theorem insertNew_cons (kb : List Sentence) (n : Sentence) (t : List Sentence) :
    insertNew kb (n :: t) = insertNew (if n ∈ kb then kb else kb ++ [n]) t := rfl

theorem removeUsed_nil (kb : List Sentence) : removeUsed kb [] = kb := rfl

theorem removeUsed_cons (kb : List Sentence) (s : Sentence) (t : List Sentence) :
    removeUsed kb (s :: t) = removeUsed (if s ∈ kb then kb.erase s else kb) t := rfl

theorem mem_insertNew_of_mem {nw : List Sentence} :
    ∀ {kb s}, s ∈ kb → s ∈ insertNew kb nw := by
  induction nw with
  | nil =>
    intro kb s h
    exact h
  | cons n t ih =>
    intro kb s h
    rw [insertNew_cons]
    apply ih
    split
    · exact h
    · exact List.mem_append_left _ h

theorem mem_insertNew_of_mem_news {nw : List Sentence} :
    ∀ {kb s}, s ∈ nw → s ∈ insertNew kb nw := by
  induction nw with
  | nil =>
    intro kb s h
    exact absurd h (List.not_mem_nil s)
  | cons n t ih =>
    intro kb s h
    rw [insertNew_cons]
    rcases List.mem_cons.mp h with h1 | h2
    · subst h1
      apply mem_insertNew_of_mem
      split
      next hmem => exact hmem
      next => exact List.mem_append_right _ (List.mem_cons_self _ _)
    · exact ih h2

theorem insertNew_nodup {nw : List Sentence} :
    ∀ {kb}, kb.Nodup → (insertNew kb nw).Nodup := by
  induction nw with
  | nil =>
    intro kb h
    exact h
  | cons n t ih =>
    intro kb h
    rw [insertNew_cons]
    apply ih
    split
    next => exact h
    next hnot =>
      rw [List.nodup_append]
      refine ⟨h, List.nodup_singleton n, ?_⟩
      intro a ha hb
      rw [List.mem_singleton] at hb
      subst hb
      exact hnot ha

theorem removeUsed_nodup {us : List Sentence} :
    ∀ {kb}, kb.Nodup → (removeUsed kb us).Nodup := by
  induction us with
  | nil =>
    intro kb h
    exact h
  | cons s t ih =>
    intro kb h
    rw [removeUsed_cons]
    apply ih
    split
    · exact List.Nodup.erase s h
    · exact h

end MinesweeperAI

/-- C2 (corrected, amended).  For distinct sentences A and B in the
knowledge base with A's cells a subset of B's and, in addition to the
claimed guard `B.count >= 1`, the source's further guard `A.count >= 1`,
the scan derives the difference sentence with cells `B.cells - A.cells` and
count `B.count - A.count`, and the apply phase inserts every derived
sentence not already present (so each derived sentence is present after the
insertion phase). -/
theorem subset_difference_derivation (kb : List Sentence) (A B : Sentence)
    (hA : A ∈ kb) (hB : B ∈ kb) (hsub : A.cells ⊆ B.cells) (hne : A ≠ B)
    (hA1 : 1 ≤ A.count) (hB1 : 1 ≤ B.count) :
    (⟨B.cells \ A.cells, B.count - A.count⟩ : Sentence) ∈ derivedList kb ∧
    ∀ s ∈ derivedList kb, s ∈ insertNew kb (derivedList kb) := by
  constructor
  · exact MinesweeperAI.mem_derivedList.mpr
      ⟨(A, B), MinesweeperAI.mem_pairs.mpr ⟨hA, hB⟩,
        MinesweeperAI.deriveOf_guard hsub hne hA1 hB1⟩
  · intro s hs
    exact MinesweeperAI.mem_insertNew_of_mem_news hs

/-- Witness for C2: the spec example, deriving `{(0,2)} = 1` from
`{(0,0),(0,1)} = 1` and `{(0,0),(0,1),(0,2)} = 2`. -/
theorem subset_difference_derivation_witness :
    (⟨{(0,2)}, 1⟩ : Sentence) ∈
      derivedList [⟨{(0,0),(0,1)}, 1⟩, ⟨{(0,0),(0,1),(0,2)}, 2⟩] := by
  have h := (subset_difference_derivation
    [⟨{(0,0),(0,1)}, 1⟩, ⟨{(0,0),(0,1),(0,2)}, 2⟩]
    ⟨{(0,0),(0,1)}, 1⟩ ⟨{(0,0),(0,1),(0,2)}, 2⟩
    (by decide) (by decide) (by decide) (by decide) (by decide) (by decide)).1
  rwa [show (⟨({(0,0),(0,1),(0,2)} : Finset Cell) \ {(0,0),(0,1)}, (2:ℤ) - 1⟩ : Sentence)
      = ⟨{(0,2)}, 1⟩ from by decide] at h

/-- C2 (corrected, counterexample).  With A = `{(0,0)} = 0` (count zero) and
B = `{(0,0),(0,1)} = 1`, A is a subset of B and `B.count >= 1`, yet the
source derives nothing because of its additional guard
`sentence1.count >= 1`: the derived list is empty and the difference
sentence `{(0,1)} = 1` is not inserted. -/
theorem zero_count_subset_inference_skipped :
    infer_knowledge [⟨{(0,0)}, 0⟩, ⟨{(0,0),(0,1)}, 1⟩] =
      .ok [⟨{(0,0)}, 0⟩, ⟨{(0,0),(0,1)}, 1⟩] ∧
    derivedList [⟨{(0,0)}, 0⟩, ⟨{(0,0),(0,1)}, 1⟩] = [] ∧
    (⟨{(0,1)}, 1⟩ : Sentence) ∉ [(⟨{(0,0)}, 0⟩ : Sentence), ⟨{(0,0),(0,1)}, 1⟩] := by
  decide

/-- C7 (corrected, amended).  The inference stage never creates duplicates:
if the knowledge base holds no two structurally-equal sentences before
`infer_knowledge`, it holds none after (the inferred-sentence insert checks
for structural equality, and removals preserve distinctness).  The
ingestion insert of `add_knowledge`, by contrast, appends unconditionally
(see the counterexample). -/
theorem infer_knowledge_preserves_nodup (kb kb' : List Sentence)
    (h : kb.Nodup) (hok : infer_knowledge kb = .ok kb') : kb'.Nodup := by
  unfold infer_knowledge at hok
  split at hok
  next => exact absurd hok (by simp)
  next =>
    injection hok with h1
    subst h1
    exact MinesweeperAI.removeUsed_nodup (MinesweeperAI.insertNew_nodup h)

/-- Witness for C7: inference on a duplicate-free two-sentence base yields a
duplicate-free base. -/
theorem infer_knowledge_preserves_nodup_witness :
    ([⟨{(0,0),(0,1)}, 1⟩, ⟨{(0,2)}, 1⟩] : List Sentence).Nodup :=
  infer_knowledge_preserves_nodup
    [⟨{(0,0),(0,1)}, 1⟩, ⟨{(0,0),(0,1),(0,2)}, 2⟩]
    [⟨{(0,0),(0,1)}, 1⟩, ⟨{(0,2)}, 1⟩] (by decide) (by decide)

/-- C7 (corrected, counterexample).  Repeating the observation
`add_knowledge((0,0), 1)` from the initial 8 by 8 state leaves two
structurally-equal sentences in the knowledge base: the ingestion insert
appends without checking for a structurally-equal sentence. -/
theorem duplicate_sentences_reachable :
    (do
      let s1 ← add_knowledge (initial 8 8) (0, 0) 1
      add_knowledge s1 (0, 0) 1 : Except Unit AIState).map AIState.knowledge =
      .ok [⟨{(0,1),(1,0),(1,1)}, 1⟩, ⟨{(0,1),(1,0),(1,1)}, 1⟩] ∧
    ¬ ([⟨{(0,1),(1,0),(1,1)}, 1⟩, ⟨{(0,1),(1,0),(1,1)}, 1⟩] : List Sentence).Nodup := by
  decide

/-- C6 (corrected, amended).  When the unresolved neighbour set is
non-empty, the inserted sentence has exactly that set as cells, and its
count is the reported count minus the number of mined neighbours that
survive the first difference (neighbours minus `safes` minus `moves_made`,
taken after the played cell is recorded); a neighbour that is in `mines`
but also in `safes` or `moves_made` is not subtracted. -/
theorem ingest_sentence_characterisation (st : AIState) (cell : Cell) (count : ℤ)
    (h : ((neighbours cell \ (recordMove st cell).safes) \ (recordMove st cell).moves_made)
        \ (recordMove st cell).mines ≠ ∅) :
    (ingest st cell count).knowledge = (recordMove st cell).knowledge ++
      [⟨((neighbours cell \ (recordMove st cell).safes) \ (recordMove st cell).moves_made)
          \ (recordMove st cell).mines,
        count - ((((neighbours cell \ (recordMove st cell).safes) \ (recordMove st cell).moves_made)
            ∩ (recordMove st cell).mines).card : ℤ)⟩] := by
  have hcard := Finset.card_inter_add_card_sdiff
    ((neighbours cell \ (recordMove st cell).safes) \ (recordMove st cell).moves_made)
    (recordMove st cell).mines
  simp only [ingest]
  rw [if_pos h]
  dsimp only
  congr 3
  omega

/-- Witness for C6: the characterisation applied at a concrete state with a
mined neighbour. -/
theorem ingest_sentence_characterisation_witness :
    (ingest ⟨8, 8, ∅, {(0,1)}, ∅, []⟩ (0,0) 1).knowledge =
      (recordMove ⟨8, 8, ∅, {(0,1)}, ∅, []⟩ (0,0)).knowledge ++
      [⟨((neighbours (0,0) \ (recordMove ⟨8, 8, ∅, {(0,1)}, ∅, []⟩ (0,0)).safes)
          \ (recordMove ⟨8, 8, ∅, {(0,1)}, ∅, []⟩ (0,0)).moves_made)
          \ (recordMove ⟨8, 8, ∅, {(0,1)}, ∅, []⟩ (0,0)).mines,
        1 - ((((neighbours (0,0) \ (recordMove ⟨8, 8, ∅, {(0,1)}, ∅, []⟩ (0,0)).safes)
            \ (recordMove ⟨8, 8, ∅, {(0,1)}, ∅, []⟩ (0,0)).moves_made)
            ∩ (recordMove ⟨8, 8, ∅, {(0,1)}, ∅, []⟩ (0,0)).mines).card : ℤ)⟩] :=
  ingest_sentence_characterisation ⟨8, 8, ∅, {(0,1)}, ∅, []⟩ (0,0) 1 (by decide)

/-- C6 (corrected, counterexample).  From a state where the neighbour
`(0,1)` of `(0,0)` is in `mines` and also in `moves_made`, the observation
`add_knowledge((0,0), 1)` inserts the sentence `{(1,0),(1,1)} = 1`, while
the claimed formula `count - |neighbours in mines|` would give
`1 - 1 = 0`. -/
theorem ingestion_count_ignores_overlapping_mines :
    (add_knowledge ⟨8, 8, {(0,1)}, {(0,1)}, ∅, []⟩ (0,0) 1).map AIState.knowledge =
      .ok [⟨{(1,0),(1,1)}, 1⟩] ∧
    (neighbours (0,0) ∩ ({(0,1)} : Finset Cell)).card = 1 := by
  decide

namespace MinesweeperAI

theorem count_used_of_block (A B : Sentence) (hAB : (deriveOf (A, B)).isSome) :
    ∀ l : List Sentence,
      l.count B ≤ ((l.map fun s2 => (A, s2)).filterMap fun p =>
        if (deriveOf p).isSome then some p.2 else none).count B := by
  intro l
  induction l with
  | nil => simp
  | cons x t ih =>
    rw [List.map_cons, List.filterMap_cons]
    by_cases hx : x = B
    · subst hx
      rw [if_pos hAB, List.count_cons_self, List.count_cons_self]
      omega
    · rw [List.count_cons_of_ne (fun hh => hx hh.symm)]
      split
      next heq => exact ih
      next b heq =>
        have hb : b = x := by
          split at heq
          · injection heq with hh
            exact hh.symm
          · exact absurd heq (by simp)
        subst hb
        rw [List.count_cons_of_ne (fun hh => hx hh.symm)]
        exact ih

theorem count_usedList_ge {kb : List Sentence} {A B : Sentence} (hA : A ∈ kb)
    (hAB : (deriveOf (A, B)).isSome) :
    kb.count B ≤ (usedList kb).count B := by
  obtain ⟨l1, l2, rfl⟩ := List.append_of_mem hA
  unfold usedList pairs
  rw [List.flatMap_append, List.flatMap_cons, List.filterMap_append,
    List.filterMap_append]
  have h := count_used_of_block A B hAB (l1 ++ A :: l2)
  simp only [List.count_append] at h ⊢
  omega

theorem count_insertNew_of_mem {nw : List Sentence} :
    ∀ {kb B}, B ∈ kb → (insertNew kb nw).count B = kb.count B := by
  induction nw with
  | nil =>
    intro kb B h
    rfl
  | cons n t ih =>
    intro kb B h
    rw [insertNew_cons]
    split
    next => exact ih h
    next hn =>
      rw [ih (List.mem_append_left _ h), List.count_append]
      have hnB : B ∉ [n] := by
        rw [List.mem_singleton]
        intro hEq
        subst hEq
        exact hn h
      rw [List.count_eq_zero.mpr hnB]
      omega

theorem not_mem_removeUsed {us : List Sentence} :
    ∀ {kb B}, kb.count B ≤ us.count B → B ∉ removeUsed kb us := by
  induction us with
  | nil =>
    intro kb B h hmem
    rw [removeUsed_nil] at hmem
    rw [List.count_nil] at h
    exact absurd hmem (List.count_eq_zero.mp (Nat.le_zero.mp h))
  | cons s t ih =>
    intro kb B h
    rw [removeUsed_cons]
    apply ih
    by_cases hsB : s = B
    · subst hsB
      rw [List.count_cons_self] at h
      split
      next hmem =>
        rw [List.count_erase_self]
        omega
      next hnot =>
        have h0 : kb.count s = 0 := List.count_eq_zero.mpr hnot
        omega
    · rw [List.count_cons_of_ne (fun hh => hsB hh.symm)] at h
      split
      next =>
        rw [List.count_erase_of_ne (fun hh => hsB hh.symm)]
        exact h
      next => exact h

end MinesweeperAI

/-- C10 (confirmed).  After a completed (non-raising) run of
`infer_knowledge`, every sentence that served as the superset operand B of a
passing subset-difference pair has been removed from the knowledge base: the
scan collects the used supersets and the apply phase, run only after the
scan, removes every occurrence of each of them. -/
theorem used_superset_removed (kb kb' : List Sentence) (A B : Sentence)
    (hok : infer_knowledge kb = .ok kb') (hA : A ∈ kb) (hB : B ∈ kb)
    (hsub : A.cells ⊆ B.cells) (hne : A ≠ B) (hA1 : 1 ≤ A.count)
    (hB1 : 1 ≤ B.count) : B ∉ kb' := by
  unfold infer_knowledge at hok
  split at hok
  next => exact absurd hok (by simp)
  next =>
    injection hok with h1
    subst h1
    apply MinesweeperAI.not_mem_removeUsed
    rw [MinesweeperAI.count_insertNew_of_mem hB]
    exact MinesweeperAI.count_usedList_ge hA
      (by rw [MinesweeperAI.deriveOf_guard hsub hne hA1 hB1]; rfl)

/-- Witness for C10: on the spec example the superset sentence
`{(0,0),(0,1),(0,2)} = 2` is gone after inference. -/
theorem used_superset_removed_witness :
    (⟨{(0,0),(0,1),(0,2)}, 2⟩ : Sentence) ∉
      [(⟨{(0,0),(0,1)}, 1⟩ : Sentence), ⟨{(0,2)}, 1⟩] :=
  used_superset_removed
    [⟨{(0,0),(0,1)}, 1⟩, ⟨{(0,0),(0,1),(0,2)}, 2⟩]
    [⟨{(0,0),(0,1)}, 1⟩, ⟨{(0,2)}, 1⟩]
    ⟨{(0,0),(0,1)}, 1⟩ ⟨{(0,0),(0,1),(0,2)}, 2⟩
    (by decide) (by decide) (by decide) (by decide) (by decide) (by decide) (by decide)

theorem add_knowledge_eq_ok (st ing : AIState) (cell : Cell) (count : ℤ)
    (kb : List Sentence) (st2 : AIState)
    (h1 : ingest st cell count = ing)
    (h2 : infer_knowledge ing.knowledge = .ok kb)
    (h3 : resolve_cells_from_knowledge { ing with knowledge := kb } = st2) :
    add_knowledge st cell count = .ok st2 := by
  unfold add_knowledge
  rw [h1, h2]
  show Except.ok (resolve_cells_from_knowledge { ing with knowledge := kb }) = _
  rw [h3]

/-- C1 (corrected, counterexample).  A reachable run on which the engine
state after `add_knowledge` is not a fixpoint: from the initial 8 by 8
state, the observations `(0,0) = 1`, `(2,0) = 2`, `(4,0) = 5` leave the
sentence `{(1,0),(1,1)} = 0` in the knowledge base, and one further
derive/resolve round changes the state (it marks those cells safe). -/
theorem add_knowledge_result_not_fixpoint :
    add_knowledge (initial 8 8) (0,0) 1 = .ok chainState1 ∧
    add_knowledge chainState1 (2,0) 2 = .ok chainState2 ∧
    add_knowledge chainState2 (4,0) 5 = .ok chainState3 ∧
    loopStep chainState3 ≠ .ok chainState3 := by
  refine ⟨by decide, ?_, ?_, by decide⟩
  · exact add_knowledge_eq_ok chainState1 chainState2 (2,0) 2
      chainState2.knowledge chainState2 (by decide) (by decide) (by decide)
  · exact add_knowledge_eq_ok chainState2
      ⟨8, 8, {(0,0),(2,0),(4,0)}, ∅, {(0,0),(2,0),(4,0)},
        [⟨{(0,1),(1,0),(1,1)}, 1⟩, ⟨{(1,0),(1,1),(2,1),(3,0),(3,1)}, 2⟩,
          ⟨{(3,0),(3,1),(4,1),(5,0),(5,1)}, 5⟩]⟩ (4,0) 5
      [⟨{(0,1),(1,0),(1,1)}, 1⟩, ⟨{(1,0),(1,1),(2,1),(3,0),(3,1)}, 2⟩,
        ⟨{(3,0),(3,1),(4,1),(5,0),(5,1)}, 5⟩]
      chainState3 (by decide) (by decide) (by decide)

/-- C1 (corrected, amended).  `add_knowledge` runs the derive/resolve round
once after ingestion, not repeatedly until no change: there are states and
observations after which running the round once more on the returned state
changes it, so the post-state of `add_knowledge` is not in general a
fixpoint of the derive/resolve/propagate loop. -/
theorem add_knowledge_single_round_not_fixpoint :
    ∃ (st : AIState) (cell : Cell) (count : ℤ) (st2 : AIState),
      add_knowledge st cell count = .ok st2 ∧ loopStep st2 ≠ .ok st2 := by
  refine ⟨chainState2, (4,0), 5, chainState3, ?_, by decide⟩
  exact add_knowledge_eq_ok chainState2
    ⟨8, 8, {(0,0),(2,0),(4,0)}, ∅, {(0,0),(2,0),(4,0)},
      [⟨{(0,1),(1,0),(1,1)}, 1⟩, ⟨{(1,0),(1,1),(2,1),(3,0),(3,1)}, 2⟩,
        ⟨{(3,0),(3,1),(4,1),(5,0),(5,1)}, 5⟩]⟩ (4,0) 5
    [⟨{(0,1),(1,0),(1,1)}, 1⟩, ⟨{(1,0),(1,1),(2,1),(3,0),(3,1)}, 2⟩,
      ⟨{(3,0),(3,1),(4,1),(5,0),(5,1)}, 5⟩]
    chainState3 (by decide) (by decide) (by decide)
